import Mathlib

/-!
A shallow embedding of the 2048 rule engine in src/game.js: the grid
representation, directional move resolution (traversal order,
farthest-position search, merge-once bookkeeping), tile spawning, session
bookkeeping (score, win flag) and terminal detection, together with proofs
of the behavioural properties stated about it.
-/

set_option maxRecDepth 40000

namespace Game2048

/-- Grid side length, GRID_SIZE = 4 in game.js. -/
def GRID_SIZE : Nat := 4

/-- A board position; x is the column index and y is the row index, exactly
as the cell objects built inside move in game.js. -/
@[ext]
structure Cell where
  x : Int
  y : Int
deriving DecidableEq, Repr

/-- A grid is a list of rows of tile values; value 0 means an empty cell,
matching the representation built in startNewGame in game.js. -/
abbrev Grid := List (List Nat)

/-- Generic two-dimensional read with a default, modelling the JS access
grid[c.y][c.x]. -/
def gget {α : Type} (d : α) (g : List (List α)) (c : Cell) : α :=
  (g.getD c.y.toNat []).getD c.x.toNat d

/-- Generic two-dimensional write, modelling the JS assignment
grid[c.y][c.x] = a. -/
def gset {α : Type} (g : List (List α)) (c : Cell) (a : α) : List (List α) :=
  g.set c.y.toNat ((g.getD c.y.toNat []).set c.x.toNat a)

/-- Read a tile value. -/
def getCell (g : Grid) (c : Cell) : Nat := gget 0 g c

/-- Write a tile value. -/
def setCell (g : Grid) (c : Cell) (v : Nat) : Grid := gset g c v

/-- Read a tile value by row and column index (grid[row][col]). -/
def cellAt (g : Grid) (row col : Nat) : Nat := getCell g ⟨(col : Int), (row : Int)⟩

/-- withinBounds from game.js. -/
def withinBounds (c : Cell) : Bool :=
  decide (0 ≤ c.x) && decide (c.x < (GRID_SIZE : Int)) &&
  decide (0 ≤ c.y) && decide (c.y < (GRID_SIZE : Int))

/-- A well-formed grid of GRID_SIZE rows, each of GRID_SIZE entries. -/
def wfG {α : Type} (g : List (List α)) : Prop :=
  g.length = GRID_SIZE ∧ ∀ row ∈ g, row.length = GRID_SIZE

/-- One step along a direction vector, the cell update in the do-while loop
of findFarthestPosition. -/
def step (c v : Cell) : Cell := ⟨c.x + v.x, c.y + v.y⟩

/-- A merge event as pushed onto mergedTiles in game.js. -/
structure MergeEvent where
  row : Int
  col : Int
  value : Nat
deriving DecidableEq, Repr

/-- The mutable state threaded through the traversal loop of move in
game.js: the grid, the same-shape merged-marker grid, the moved flag, the
list of merge events, and the score increment accumulated by the
score += mergedValue statements. -/
structure MoveState where
  grid : Grid
  merged : List (List Bool)
  moved : Bool
  mergedTiles : List MergeEvent
  scoreGain : Nat
deriving DecidableEq, Repr

/-- The four directional commands. -/
inductive Direction where
  | up
  | down
  | left
  | right
deriving DecidableEq, Repr

/-- The vectors table of move in game.js. -/
def vector : Direction → Cell
  | .up => ⟨0, -1⟩
  | .down => ⟨0, 1⟩
  | .left => ⟨-1, 0⟩
  | .right => ⟨1, 0⟩

/-- The pair of index sequences built by buildTraversals. -/
structure Traversals where
  x : List Nat
  y : List Nat
deriving DecidableEq, Repr

/-- buildTraversals from game.js: indices 0..GRID_SIZE-1, with the x
sequence reversed when the horizontal vector component is 1 and the y
sequence reversed when the vertical component is 1. -/
def buildTraversals (v : Cell) : Traversals :=
  let base := List.range GRID_SIZE
  { x := if v.x = 1 then base.reverse else base
    y := if v.y = 1 then base.reverse else base }

/-- The cells visited by the nested forEach loops of move: outer loop over
traversals.y, inner loop over traversals.x. -/
def traversalCells (t : Traversals) : List Cell :=
  t.y.flatMap fun (y : Nat) => t.x.map fun (x : Nat) => ⟨(x : Int), (y : Int)⟩

/-- findFarthestPosition from game.js. The do-while loop repeatedly steps
along the vector while the stepped-to cell is in bounds and empty; it is a
bounded walk, so it is embedded with a fuel argument, and fuel GRID_SIZE is
enough for any in-bounds start (proved below). Returns (farthest, next). -/
def findFarthestPosition (g : Grid) (v : Cell) : Nat → Cell → Cell × Cell
  | 0, cell => (cell, step cell v)
  | fuel + 1, cell =>
    let next := step cell v
    if withinBounds next && (getCell g next == 0) then
      findFarthestPosition g v fuel next
    else
      (cell, next)

/-- Read the merged-marker grid. -/
def mergedAt (m : List (List Bool)) (c : Cell) : Bool := gget false m c

/-- Mark a cell as the destination of a merge. -/
def setMerged (m : List (List Bool)) (c : Cell) : List (List Bool) := gset m c true

/-- The body of the nested traversal loops of move in game.js, processing
one cell: skip empty cells; otherwise find the farthest position, merge
into next when next is in bounds, holds an equal value and is not yet
merged into, else slide to the farthest position when that differs from
the starting cell. -/
def processCell (v : Cell) (s : MoveState) (cell : Cell) : MoveState :=
  let tile := getCell s.grid cell
  if tile ≠ 0 then
    let positions := findFarthestPosition s.grid v GRID_SIZE cell
    let farthest := positions.1
    let next := positions.2
    if withinBounds next && (getCell s.grid next == tile) && !(mergedAt s.merged next) then
      let mergedValue := tile * 2
      { grid := setCell (setCell s.grid next mergedValue) cell 0
        merged := setMerged s.merged next
        moved := true
        mergedTiles := s.mergedTiles ++ [⟨next.y, next.x, mergedValue⟩]
        scoreGain := s.scoreGain + mergedValue }
    else if farthest ≠ cell then
      { s with grid := setCell (setCell s.grid farthest tile) cell 0, moved := true }
    else
      s
  else
    s

/-- The all-false merged-marker grid allocated at the start of move. -/
def initMerged : List (List Bool) :=
  List.replicate GRID_SIZE (List.replicate GRID_SIZE false)

/-- The slide-and-merge phase of move in game.js: fold the loop body over
the traversal cells, starting from the incoming grid, a fresh merged-marker
grid, moved = false, no merge events and no score gain. -/
def moveResolve (g : Grid) (d : Direction) : MoveState :=
  let v := vector d
  (traversalCells (buildTraversals v)).foldl (processCell v)
    { grid := g, merged := initMerged, moved := false, mergedTiles := [], scoreGain := 0 }

/-- movesAvailable from game.js: an empty cell exists, or some cell equals
its right or down neighbour. -/
def movesAvailable (g : Grid) : Bool :=
  ((List.range GRID_SIZE).any fun row =>
    (List.range GRID_SIZE).any fun col => cellAt g row col == 0) ||
  ((List.range GRID_SIZE).any fun row =>
    (List.range GRID_SIZE).any fun col =>
      (decide (row < GRID_SIZE - 1) && (cellAt g (row + 1) col == cellAt g row col)) ||
      (decide (col < GRID_SIZE - 1) && (cellAt g row (col + 1) == cellAt g row col)))

/-- hasReached2048 from game.js. -/
def hasReached2048 (g : Grid) : Bool :=
  (List.range GRID_SIZE).any fun row =>
    (List.range GRID_SIZE).any fun col => decide (2048 ≤ cellAt g row col)

/-- The row-major list of empty cells collected by spawnTile. -/
def emptyCellsList (g : Grid) : List Cell :=
  (List.range GRID_SIZE).flatMap fun row =>
    (List.range GRID_SIZE).filterMap fun col =>
      if cellAt g row col = 0 then some ⟨(col : Int), (row : Int)⟩ else none

/-- spawnTile from game.js. The two random draws are injected as
parameters: posR chooses the empty cell (the code draws a uniform index
below the number of empty cells, modelled as posR mod length), and twoR is
true when the 90 percent branch writing value 2 is taken, else 4 is
written. A full board is a no-op. -/
def spawnTile (g : Grid) (posR : Nat) (twoR : Bool) : Grid :=
  let empty := emptyCellsList g
  if 0 < empty.length then
    setCell g (empty.getD (posR % empty.length) ⟨0, 0⟩) (if twoR then 2 else 4)
  else
    g

/-- The grid of all empty cells built at the start of startNewGame. -/
def emptyGrid : Grid := List.replicate GRID_SIZE (List.replicate GRID_SIZE 0)

/-- The session state: the grid, the score and the sticky hasWon flag of
game.js. -/
structure Session where
  grid : Grid
  score : Nat
  hasWon : Bool
deriving DecidableEq, Repr

/-- startNewGame from game.js: fresh empty grid, score 0, hasWon false, and
two spawned tiles (random draws injected as parameters). -/
def startNewGame (p1 : Nat) (v1 : Bool) (p2 : Nat) (v2 : Bool) : Session :=
  { grid := spawnTile (spawnTile emptyGrid p1 v1) p2 v2, score := 0, hasWon := false }

/-- The outcome of one move command: the new session state, whether any
tile moved, the merge events, and whether the win or the game-over message
was shown by this move. -/
structure MoveOutcome where
  session : Session
  changed : Bool
  mergeEvents : List MergeEvent
  wonSignal : Bool
  lostSignal : Bool
deriving DecidableEq, Repr

/-- One full move of game.js (the isAnimating guard is released within the
same logical step): resolve the slide-and-merge phase, add the accumulated
merge values to the score, and if anything moved spawn one tile and then
evaluate the win message (only when hasWon was not already set) else the
game-over message. -/
def moveSession (s : Session) (d : Direction) (posR : Nat) (twoR : Bool) : MoveOutcome :=
  let r := moveResolve s.grid d
  let score1 := s.score + r.scoreGain
  if r.moved then
    let g2 := spawnTile r.grid posR twoR
    if !s.hasWon && hasReached2048 g2 then
      { session := { grid := g2, score := score1, hasWon := true }
        changed := true, mergeEvents := r.mergedTiles, wonSignal := true, lostSignal := false }
    else if !(movesAvailable g2) then
      { session := { grid := g2, score := score1, hasWon := s.hasWon }
        changed := true, mergeEvents := r.mergedTiles, wonSignal := false, lostSignal := true }
    else
      { session := { grid := g2, score := score1, hasWon := s.hasWon }
        changed := true, mergeEvents := r.mergedTiles, wonSignal := false, lostSignal := false }
  else
    { session := { grid := r.grid, score := score1, hasWon := s.hasWon }
      changed := false, mergeEvents := r.mergedTiles, wonSignal := false, lostSignal := false }

/-- Bounded test that a number is a power of two with exponent at least
one; the fuel bounds the number of halvings. -/
def isPowTwoAux : Nat → Nat → Bool
  | 0, _ => false
  | _ + 1, 0 => false
  | _ + 1, 1 => false
  | _ + 1, 2 => true
  | fuel + 1, n + 3 => (n + 3) % 2 == 0 && isPowTwoAux fuel ((n + 3) / 2)

/-- Test that a tile value is 2, 4, 8, ...: a power of two that is at least
2. -/
def isPowTwoTile (n : Nat) : Bool := isPowTwoAux n n

/-- Every non-empty cell of the grid holds a power of two that is at least
2. -/
def powTwoInv (g : Grid) : Bool :=
  (List.range GRID_SIZE).all fun row =>
    (List.range GRID_SIZE).all fun col =>
      (cellAt g row col == 0) || isPowTwoTile (cellAt g row col)

/-- Sum of the resulting values of a list of merge events. -/
def sumVals (l : List MergeEvent) : Nat := (l.map MergeEvent.value).sum

/-- Sum of all tile values on the grid. -/
def gridSum (g : Grid) : Nat := (g.map List.sum).sum

/-- Bounds-checked read: none exactly when the cell is out of bounds. Used
by the instrumented move below to show no out-of-bounds access occurs. -/
def getCellM (g : Grid) (c : Cell) : Option Nat :=
  if withinBounds c then some (getCell g c) else none

/-- Bounds-checked write: none exactly when the cell is out of bounds. -/
def setCellM (g : Grid) (c : Cell) (v : Nat) : Option Grid :=
  if withinBounds c then some (setCell g c v) else none

/-- findFarthestPosition with every grid read instrumented: the loop
condition short-circuits, reading the grid only after the bounds check
succeeds, exactly as the JS && does. -/
def findFarthestPositionChecked (g : Grid) (v : Cell) : Nat → Cell → Option (Cell × Cell)
  | 0, cell => some (cell, step cell v)
  | fuel + 1, cell =>
    let next := step cell v
    if withinBounds next then
      match getCellM g next with
      | none => none
      | some t =>
        if t == 0 then findFarthestPositionChecked g v fuel next
        else some (cell, next)
    else
      some (cell, next)

/-- The loop body of move with every grid read and write instrumented by
the bounds-checked accessors; the merge condition reads the candidate cell
only after withinBounds succeeds, as the short-circuit && does in game.js. -/
def processCellChecked (v : Cell) (s : MoveState) (cell : Cell) : Option MoveState :=
  match getCellM s.grid cell with
  | none => none
  | some tile =>
    if tile ≠ 0 then
      match findFarthestPositionChecked s.grid v GRID_SIZE cell with
      | none => none
      | some positions =>
        let farthest := positions.1
        let next := positions.2
        let slide : Option MoveState :=
          if farthest ≠ cell then
            match setCellM s.grid farthest tile with
            | none => none
            | some g1 =>
              match setCellM g1 cell 0 with
              | none => none
              | some g2 => some { s with grid := g2, moved := true }
          else
            some s
        if withinBounds next then
          match getCellM s.grid next with
          | none => none
          | some nval =>
            if nval == tile && !(mergedAt s.merged next) then
              match setCellM s.grid next (tile * 2) with
              | none => none
              | some g1 =>
                match setCellM g1 cell 0 with
                | none => none
                | some g2 =>
                  some { grid := g2
                         merged := setMerged s.merged next
                         moved := true
                         mergedTiles := s.mergedTiles ++ [⟨next.y, next.x, tile * 2⟩]
                         scoreGain := s.scoreGain + tile * 2 }
            else
              slide
        else
          slide
    else
      some s

/-- The slide-and-merge phase with instrumented accesses; returns none if
any access would be out of bounds. -/
def moveResolveChecked (g : Grid) (d : Direction) : Option MoveState :=
  let v := vector d
  (traversalCells (buildTraversals v)).foldlM (processCellChecked v)
    { grid := g, merged := initMerged, moved := false, mergedTiles := [], scoreGain := 0 }

/-- Modelled from the spec: the farthest-position search as section 4.1 of
the spec describes it, walking until the next step would leave the board or
land on a non-empty, not-yet-merged-into cell. Unlike findFarthestPosition
in game.js, this walk also consults the merged-marker grid m: it keeps
walking over a non-empty cell that has already received a merge. -/
def farthestSpecSearch (g : Grid) (m : List (List Bool)) (v : Cell) : Nat → Cell → Cell × Cell
  | 0, cell => (cell, step cell v)
  | fuel + 1, cell =>
    let next := step cell v
    if withinBounds next && ((getCell g next == 0) || mergedAt m next) then
      farthestSpecSearch g m v fuel next
    else
      (cell, next)

/-! Basic list lemmas used to reason about the two-dimensional accessors. -/

theorem getD_set_self {α : Type} (a d : α) :
    ∀ (l : List α) (i : Nat), i < l.length → (l.set i a).getD i d = a := by
  intro l
  induction l with
  | nil => intro i h; simp at h
  | cons x xs ih =>
    intro i h
    cases i with
    | zero => rfl
    | succ j => simpa using ih j (by simpa using h)

theorem getD_set_ne {α : Type} (a d : α) :
    ∀ (l : List α) (i j : Nat), i ≠ j → (l.set i a).getD j d = l.getD j d := by
  intro l
  induction l with
  | nil => intro i j _; simp
  | cons x xs ih =>
    intro i j hij
    cases i with
    | zero =>
      cases j with
      | zero => exact absurd rfl hij
      | succ j2 => simp
    | succ i2 =>
      cases j with
      | zero => simp
      | succ j2 => simpa using ih i2 j2 (by omega)

theorem getD_mem {α : Type} (d : α) :
    ∀ (l : List α) (i : Nat), i < l.length → l.getD i d ∈ l := by
  intro l
  induction l with
  | nil => intro i h; simp at h
  | cons x xs ih =>
    intro i h
    cases i with
    | zero => simp
    | succ j =>
      simp only [List.getD_cons_succ]
      exact List.mem_cons_of_mem x (ih j (by simpa using h))

theorem sum_set_getD :
    ∀ (l : List Nat) (i : Nat) (a : Nat), i < l.length →
      (l.set i a).sum + l.getD i 0 = l.sum + a := by
  intro l
  induction l with
  | nil => intro i a h; simp at h
  | cons x xs ih =>
    intro i a h
    cases i with
    | zero => simp [Nat.add_comm, Nat.add_left_comm]
    | succ j =>
      have := ih j a (by simpa using h)
      simp only [List.set_cons_succ, List.sum_cons, List.getD_cons_succ]
      omega

theorem getD_map {α β : Type} (f : α → β) (d : α) :
    ∀ (l : List α) (i : Nat), (l.map f).getD i (f d) = f (l.getD i d) := by
  intro l
  induction l with
  | nil => intro i; simp
  | cons x xs ih =>
    intro i
    cases i with
    | zero => rfl
    | succ j => simp only [List.map_cons, List.getD_cons_succ]; exact ih j

/-! Bounds and accessor lemmas. -/

theorem withinBounds_iff (c : Cell) :
    withinBounds c = true ↔ 0 ≤ c.x ∧ c.x < 4 ∧ 0 ≤ c.y ∧ c.y < 4 := by
  simp [withinBounds, GRID_SIZE, and_assoc]

theorem cell_eta (c : Cell) (h : withinBounds c = true) :
    (⟨(c.x.toNat : Int), (c.y.toNat : Int)⟩ : Cell) = c := by
  rw [withinBounds_iff] at h
  ext <;> simp <;> omega

theorem cell_toNat_ne (c e : Cell) (hc : withinBounds c = true)
    (he : withinBounds e = true) (hne : c ≠ e) :
    c.y.toNat ≠ e.y.toNat ∨ c.x.toNat ≠ e.x.toNat := by
  rw [withinBounds_iff] at hc he
  by_contra hcon
  push_neg at hcon
  exact hne (by ext <;> omega)

theorem wfG_row {α : Type} {g : List (List α)} (hg : wfG g) {i : Nat}
    (hi : i < GRID_SIZE) : (g.getD i []).length = GRID_SIZE :=
  hg.2 _ (getD_mem [] g i (by rw [hg.1]; exact hi))

theorem gget_gset_self {α : Type} (d : α) (g : List (List α)) (c : Cell) (a : α)
    (hg : wfG g) (hc : withinBounds c = true) :
    gget d (gset g c a) c = a := by
  rw [withinBounds_iff] at hc
  have hy : c.y.toNat < g.length := by rw [hg.1]; simp [GRID_SIZE]; omega
  have hrow : (g.getD c.y.toNat []).length = GRID_SIZE :=
    hg.2 _ (getD_mem [] g c.y.toNat hy)
  have hx : c.x.toNat < (g.getD c.y.toNat []).length := by
    rw [hrow]; simp [GRID_SIZE]; omega
  unfold gget gset
  rw [getD_set_self _ _ g c.y.toNat hy]
  exact getD_set_self a d _ c.x.toNat hx

theorem gget_gset_ne {α : Type} (d : α) (g : List (List α)) (c e : Cell) (a : α)
    (hg : wfG g) (hc : withinBounds c = true) (he : withinBounds e = true)
    (hne : e ≠ c) :
    gget d (gset g c a) e = gget d g e := by
  unfold gget gset
  rcases cell_toNat_ne e c he hc hne with hrow | hcol
  · rw [getD_set_ne _ _ g c.y.toNat e.y.toNat (fun h => hrow h.symm)]
  · by_cases hy : e.y.toNat = c.y.toNat
    · rw [withinBounds_iff] at hc
      have hylt : c.y.toNat < g.length := by rw [hg.1]; simp [GRID_SIZE]; omega
      rw [hy, getD_set_self _ _ g c.y.toNat hylt]
      exact getD_set_ne a d _ c.x.toNat e.x.toNat (fun h => hcol h.symm)
    · rw [getD_set_ne _ _ g c.y.toNat e.y.toNat (fun h => hy h.symm)]

theorem wfG_gset {α : Type} (g : List (List α)) (c : Cell) (a : α) (hg : wfG g)
    (hc : withinBounds c = true) : wfG (gset g c a) := by
  constructor
  · simpa [gset] using hg.1
  · intro row hrow
    rcases List.mem_or_eq_of_mem_set hrow with hmem | heq
    · exact hg.2 row hmem
    · rw [withinBounds_iff] at hc
      have hy : c.y.toNat < g.length := by rw [hg.1]; simp [GRID_SIZE]; omega
      have : (g.getD c.y.toNat []).length = GRID_SIZE :=
        hg.2 _ (getD_mem [] g c.y.toNat hy)
      rw [heq, List.length_set]
      exact this

/-! Characterization of the farthest-position search. -/

/-- The four movement vectors that move in game.js can pass to
findFarthestPosition. -/
def UnitVec (v : Cell) : Prop :=
  v = ⟨0, -1⟩ ∨ v = ⟨0, 1⟩ ∨ v = ⟨-1, 0⟩ ∨ v = ⟨1, 0⟩

/-- The cell k steps along v from c. -/
def ray (c v : Cell) (k : Nat) : Cell :=
  ⟨c.x + (k : Int) * v.x, c.y + (k : Int) * v.y⟩

/-- How many in-bounds steps remain along v from c; used as the fuel
measure for the walk. -/
def room (v c : Cell) : Int :=
  (if v.x = 1 then 3 - c.x else 0) + (if v.x = -1 then c.x else 0) +
  (if v.y = 1 then 3 - c.y else 0) + (if v.y = -1 then c.y else 0)

theorem unitVec_vector (d : Direction) : UnitVec (vector d) := by
  cases d <;> simp [UnitVec, vector]

theorem ray_zero (c v : Cell) : ray c v 0 = c := by
  ext <;> simp [ray]

theorem ray_one (c v : Cell) : ray c v 1 = step c v := by
  ext <;> simp [ray, step]

theorem ray_shift (c v : Cell) (k : Nat) : ray (step c v) v k = ray c v (k + 1) := by
  ext <;> simp [ray, step] <;> ring

theorem ray_succ (c v : Cell) (k : Nat) : step (ray c v k) v = ray c v (k + 1) := by
  ext <;> simp [ray, step] <;> ring

theorem room_step (v c : Cell) (hv : UnitVec v) : room v (step c v) = room v c - 1 := by
  rcases hv with rfl | rfl | rfl | rfl <;> simp [room, step] <;> ring

theorem room_bounds (v c : Cell) (hv : UnitVec v) (hc : withinBounds c = true) :
    0 ≤ room v c ∧ room v c ≤ 3 := by
  rw [withinBounds_iff] at hc
  rcases hv with rfl | rfl | rfl | rfl <;> simp [room] <;> omega

/-- The walk performed by findFarthestPosition, characterized: the next
cell is one step beyond the farthest cell, the farthest cell is reached
from the start through in-bounds empty cells, and the next cell is out of
bounds or non-empty. Holds whenever the fuel exceeds the room left along
the vector. -/
theorem fpp_walk (g : Grid) (v : Cell) (hv : UnitVec v) :
    ∀ (fuel : Nat) (c : Cell), withinBounds c = true → room v c < (fuel : Int) →
      (findFarthestPosition g v fuel c).2 = step (findFarthestPosition g v fuel c).1 v ∧
      (∃ k : Nat, (findFarthestPosition g v fuel c).1 = ray c v k ∧
        ∀ j : Nat, 1 ≤ j → j ≤ k →
          withinBounds (ray c v j) = true ∧ getCell g (ray c v j) = 0) ∧
      (withinBounds (findFarthestPosition g v fuel c).2 = false ∨
        getCell g (findFarthestPosition g v fuel c).2 ≠ 0) := by
  intro fuel
  induction fuel with
  | zero =>
    intro c hc hroom
    have := room_bounds v c hv hc
    simp only [Nat.cast_zero] at hroom
    omega
  | succ n ih =>
    intro c hc hroom
    by_cases h : (withinBounds (step c v) && (getCell g (step c v) == 0)) = true
    · have hsplit : withinBounds (step c v) = true ∧ getCell g (step c v) = 0 := by
        simpa using h
      have hroom2 : room v (step c v) < (n : Int) := by
        rw [room_step v c hv]
        push_cast at hroom ⊢
        omega
      have hrec := ih (step c v) hsplit.1 hroom2
      have hfn : findFarthestPosition g v (n + 1) c = findFarthestPosition g v n (step c v) := by
        simp only [findFarthestPosition]
        rw [if_pos h]
      rw [hfn]
      refine ⟨hrec.1, ?_, hrec.2.2⟩
      obtain ⟨k, hk, hinter⟩ := hrec.2.1
      refine ⟨k + 1, by rw [hk, ray_shift], ?_⟩
      intro j h1 hjk
      cases j with
      | zero => omega
      | succ j2 =>
        cases j2 with
        | zero => rw [ray_one]; exact hsplit
        | succ j3 =>
          rw [← ray_shift]
          exact hinter (j3 + 1) (by omega) (by omega)
    · have hfn : findFarthestPosition g v (n + 1) c = (c, step c v) := by
        simp only [findFarthestPosition]
        rw [if_neg h]
      rw [hfn]
      dsimp only
      refine ⟨rfl, ⟨0, (ray_zero c v).symm, by intro j h1 h2; omega⟩, ?_⟩
      by_cases hw : withinBounds (step c v) = true
      · right
        intro h0
        exact h (by simp [hw, h0])
      · left
        simp only [Bool.not_eq_true] at hw
        exact hw

/-- The facts about findFarthestPosition with fuel GRID_SIZE needed by the
move proofs: next is one step past farthest, farthest is in bounds,
farthest is the start or an empty cell, next is out of bounds or non-empty,
and next differs from the start. -/
theorem fpp_props (g : Grid) (v : Cell) (hv : UnitVec v) (c : Cell)
    (hc : withinBounds c = true) :
    (findFarthestPosition g v GRID_SIZE c).2 = step (findFarthestPosition g v GRID_SIZE c).1 v ∧
    withinBounds (findFarthestPosition g v GRID_SIZE c).1 = true ∧
    ((findFarthestPosition g v GRID_SIZE c).1 = c ∨
      getCell g (findFarthestPosition g v GRID_SIZE c).1 = 0) ∧
    (withinBounds (findFarthestPosition g v GRID_SIZE c).2 = false ∨
      getCell g (findFarthestPosition g v GRID_SIZE c).2 ≠ 0) ∧
    (findFarthestPosition g v GRID_SIZE c).2 ≠ c := by
  have hroom : room v c < ((GRID_SIZE : Nat) : Int) := by
    have := room_bounds v c hv hc
    simp only [GRID_SIZE, Nat.cast_ofNat]
    omega
  obtain ⟨h1, ⟨k, hk, hinter⟩, h3⟩ := fpp_walk g v hv GRID_SIZE c hc hroom
  refine ⟨h1, ?_, ?_, h3, ?_⟩
  · cases k with
    | zero => rw [hk, ray_zero]; exact hc
    | succ j => rw [hk]; exact (hinter (j + 1) (by omega) (by omega)).1
  · cases k with
    | zero => left; rw [hk, ray_zero]
    | succ j => right; rw [hk]; exact (hinter (j + 1) (by omega) (by omega)).2
  · intro hceq
    rw [h1, hk, ray_succ] at hceq
    rw [Cell.ext_iff] at hceq
    rcases hv with rfl | rfl | rfl | rfl <;> simp [ray] at hceq <;> omega

/-! Fold machinery and grid-sum lemmas. -/

theorem foldl_preserve {α β : Type} (f : α → β → α) (P : α → Prop) :
    ∀ (l : List β) (a : α), (∀ x ∈ l, ∀ b, P b → P (f b x)) → P a → P (l.foldl f a) := by
  intro l
  induction l with
  | nil => intro a _ ha; exact ha
  | cons x xs ih =>
    intro a h ha
    exact ih (f a x) (fun y hy b hb => h y (List.mem_cons_of_mem x hy) b hb)
      (h x (List.mem_cons_self x xs) a ha)

theorem withinBounds_nat (x y : Nat) (hx : x < GRID_SIZE) (hy : y < GRID_SIZE) :
    withinBounds ⟨(x : Int), (y : Int)⟩ = true := by
  rw [withinBounds_iff]
  dsimp only
  simp only [GRID_SIZE] at hx hy
  refine ⟨by omega, by omega, by omega, by omega⟩

theorem mem_buildTraversals_x (v : Cell) (x : Nat)
    (hx : x ∈ (buildTraversals v).x) : x < GRID_SIZE := by
  simp only [buildTraversals] at hx
  split at hx
  · rw [List.mem_reverse, List.mem_range] at hx; exact hx
  · rw [List.mem_range] at hx; exact hx

theorem mem_buildTraversals_y (v : Cell) (y : Nat)
    (hy : y ∈ (buildTraversals v).y) : y < GRID_SIZE := by
  simp only [buildTraversals] at hy
  split at hy
  · rw [List.mem_reverse, List.mem_range] at hy; exact hy
  · rw [List.mem_range] at hy; exact hy

theorem traversal_mem_inb (v : Cell) (c : Cell)
    (hc : c ∈ traversalCells (buildTraversals v)) : withinBounds c = true := by
  unfold traversalCells at hc
  rw [List.mem_flatMap] at hc
  obtain ⟨y, hy, hc⟩ := hc
  rw [List.mem_map] at hc
  obtain ⟨x, hx, rfl⟩ := hc
  exact withinBounds_nat x y (mem_buildTraversals_x v x hx) (mem_buildTraversals_y v y hy)

theorem getCell_setCell_self (g : Grid) (c : Cell) (v : Nat) (hg : wfG g)
    (hc : withinBounds c = true) : getCell (setCell g c v) c = v :=
  gget_gset_self 0 g c v hg hc

theorem getCell_setCell_ne (g : Grid) (c e : Cell) (v : Nat) (hg : wfG g)
    (hc : withinBounds c = true) (he : withinBounds e = true) (hne : e ≠ c) :
    getCell (setCell g c v) e = getCell g e :=
  gget_gset_ne 0 g c e v hg hc he hne

theorem wfG_setCell (g : Grid) (c : Cell) (v : Nat) (hg : wfG g)
    (hc : withinBounds c = true) : wfG (setCell g c v) :=
  wfG_gset g c v hg hc

theorem gridSum_setCell (g : Grid) (c : Cell) (v : Nat) (hg : wfG g)
    (hc : withinBounds c = true) :
    gridSum (setCell g c v) + getCell g c = gridSum g + v := by
  rw [withinBounds_iff] at hc
  have hy : c.y.toNat < g.length := by rw [hg.1]; simp only [GRID_SIZE]; omega
  have hrow : (g.getD c.y.toNat []).length = GRID_SIZE :=
    hg.2 _ (getD_mem [] g c.y.toNat hy)
  have hx : c.x.toNat < (g.getD c.y.toNat []).length := by
    rw [hrow]; simp only [GRID_SIZE]; omega
  unfold gridSum setCell gset getCell gget
  rw [List.map_set]
  have houter := sum_set_getD (g.map List.sum) c.y.toNat ((g.getD c.y.toNat []).set c.x.toNat v).sum
    (by rw [List.length_map]; exact hy)
  have hmap : (g.map List.sum).getD c.y.toNat 0 = (g.getD c.y.toNat []).sum := by
    have := getD_map List.sum [] g c.y.toNat
    simpa using this
  have hinner := sum_set_getD (g.getD c.y.toNat []) c.x.toNat v hx
  rw [hmap] at houter
  omega

/-- Case analysis for the loop body of move: each processed cell either
leaves the state unchanged, performs a merge into next, or slides the tile
to the farthest position. -/
theorem processCell_cases (v : Cell) (s : MoveState) (c : Cell) :
    processCell v s c = s ∨
    (getCell s.grid c ≠ 0 ∧
      withinBounds (findFarthestPosition s.grid v GRID_SIZE c).2 = true ∧
      getCell s.grid (findFarthestPosition s.grid v GRID_SIZE c).2 = getCell s.grid c ∧
      mergedAt s.merged (findFarthestPosition s.grid v GRID_SIZE c).2 = false ∧
      processCell v s c =
        { grid := setCell (setCell s.grid (findFarthestPosition s.grid v GRID_SIZE c).2
            (getCell s.grid c * 2)) c 0
          merged := setMerged s.merged (findFarthestPosition s.grid v GRID_SIZE c).2
          moved := true
          mergedTiles := s.mergedTiles ++
            [⟨(findFarthestPosition s.grid v GRID_SIZE c).2.y,
              (findFarthestPosition s.grid v GRID_SIZE c).2.x, getCell s.grid c * 2⟩]
          scoreGain := s.scoreGain + getCell s.grid c * 2 }) ∨
    (getCell s.grid c ≠ 0 ∧
      (findFarthestPosition s.grid v GRID_SIZE c).1 ≠ c ∧
      processCell v s c =
        { s with grid := setCell (setCell s.grid (findFarthestPosition s.grid v GRID_SIZE c).1
            (getCell s.grid c)) c 0, moved := true }) := by
  by_cases h0 : getCell s.grid c ≠ 0
  · by_cases hm : (withinBounds (findFarthestPosition s.grid v GRID_SIZE c).2 &&
        (getCell s.grid (findFarthestPosition s.grid v GRID_SIZE c).2 == getCell s.grid c) &&
        !(mergedAt s.merged (findFarthestPosition s.grid v GRID_SIZE c).2)) = true
    · right; left
      have hsplit := hm
      simp only [Bool.and_eq_true, beq_iff_eq, Bool.not_eq_true'] at hsplit
      refine ⟨h0, hsplit.1.1, hsplit.1.2, hsplit.2, ?_⟩
      unfold processCell
      rw [if_pos h0, if_pos hm]
    · by_cases hf : (findFarthestPosition s.grid v GRID_SIZE c).1 ≠ c
      · right; right
        refine ⟨h0, hf, ?_⟩
        unfold processCell
        rw [if_pos h0, if_neg (by exact fun h => hm h), if_pos hf]
      · left
        unfold processCell
        rw [if_pos h0, if_neg (by exact fun h => hm h), if_neg hf]
  · left
    unfold processCell
    rw [if_neg h0]

theorem sumVals_append_single (l : List MergeEvent) (e : MergeEvent) :
    sumVals (l ++ [e]) = sumVals l + e.value := by
  simp [sumVals]

/-- One loop-body step preserves well-formedness, preserves the total tile
value on the grid, and increases the score gain by exactly the value of
the merge events it appends. -/
theorem processCell_conserve (v : Cell) (hv : UnitVec v) (s : MoveState) (c : Cell)
    (hc : withinBounds c = true) (hw : wfG s.grid) :
    wfG (processCell v s c).grid ∧
    gridSum (processCell v s c).grid = gridSum s.grid ∧
    (processCell v s c).scoreGain + sumVals s.mergedTiles =
      s.scoreGain + sumVals (processCell v s c).mergedTiles := by
  rcases processCell_cases v s c with h | ⟨h0, hinb, hval, hmg, heq⟩ | ⟨h0, hne, heq⟩
  · rw [h]; exact ⟨hw, rfl, rfl⟩
  · have hnec : (findFarthestPosition s.grid v GRID_SIZE c).2 ≠ c :=
      (fpp_props s.grid v hv c hc).2.2.2.2
    have hw1 : wfG (setCell s.grid (findFarthestPosition s.grid v GRID_SIZE c).2
        (getCell s.grid c * 2)) := wfG_setCell _ _ _ hw hinb
    have hw2 : wfG (setCell (setCell s.grid (findFarthestPosition s.grid v GRID_SIZE c).2
        (getCell s.grid c * 2)) c 0) := wfG_setCell _ _ _ hw1 hc
    have hs1 := gridSum_setCell s.grid (findFarthestPosition s.grid v GRID_SIZE c).2
      (getCell s.grid c * 2) hw hinb
    have hs2 := gridSum_setCell (setCell s.grid (findFarthestPosition s.grid v GRID_SIZE c).2
      (getCell s.grid c * 2)) c 0 hw1 hc
    have hgc : getCell (setCell s.grid (findFarthestPosition s.grid v GRID_SIZE c).2
        (getCell s.grid c * 2)) c = getCell s.grid c :=
      getCell_setCell_ne _ _ _ _ hw hinb hc (fun hcc => hnec hcc.symm)
    rw [heq]
    refine ⟨hw2, ?_, ?_⟩
    · dsimp only
      rw [hval] at hs1
      rw [hgc] at hs2
      omega
    · dsimp only
      rw [sumVals_append_single]
      dsimp only
      omega
  · have hprops := fpp_props s.grid v hv c hc
    have hinb1 : withinBounds (findFarthestPosition s.grid v GRID_SIZE c).1 = true :=
      hprops.2.1
    have hz : getCell s.grid (findFarthestPosition s.grid v GRID_SIZE c).1 = 0 := by
      rcases hprops.2.2.1 with h1 | h1
      · exact absurd h1 hne
      · exact h1
    have hw1 : wfG (setCell s.grid (findFarthestPosition s.grid v GRID_SIZE c).1
        (getCell s.grid c)) := wfG_setCell _ _ _ hw hinb1
    have hw2 : wfG (setCell (setCell s.grid (findFarthestPosition s.grid v GRID_SIZE c).1
        (getCell s.grid c)) c 0) := wfG_setCell _ _ _ hw1 hc
    have hs1 := gridSum_setCell s.grid (findFarthestPosition s.grid v GRID_SIZE c).1
      (getCell s.grid c) hw hinb1
    have hs2 := gridSum_setCell (setCell s.grid (findFarthestPosition s.grid v GRID_SIZE c).1
      (getCell s.grid c)) c 0 hw1 hc
    have hgc : getCell (setCell s.grid (findFarthestPosition s.grid v GRID_SIZE c).1
        (getCell s.grid c)) c = getCell s.grid c :=
      getCell_setCell_ne _ _ _ _ hw hinb1 hc (fun hcc => hne hcc.symm)
    rw [heq]
    refine ⟨hw2, ?_, ?_⟩
    · dsimp only
      rw [hz] at hs1
      rw [hgc] at hs2
      omega
    · rfl

/-- A loop-body step that leaves the moved flag false left the whole state
unchanged. -/
theorem processCell_moved_false (v : Cell) (s : MoveState) (c : Cell)
    (h : (processCell v s c).moved = false) : processCell v s c = s := by
  rcases processCell_cases v s c with hA | ⟨_, _, _, _, heq⟩ | ⟨_, _, heq⟩
  · exact hA
  · rw [heq] at h; simp at h
  · rw [heq] at h; simp at h

/-- One loop-body step preserves the merged-marker bookkeeping: the marker
grid stays well formed, every recorded merge event points at an in-bounds
cell whose marker is set, and no two events share a destination cell. -/
theorem processCell_mergeInv (v : Cell) (s : MoveState) (c : Cell)
    (hwm : wfG s.merged)
    (hev : ∀ ev ∈ s.mergedTiles, withinBounds ⟨ev.col, ev.row⟩ = true ∧
      mergedAt s.merged ⟨ev.col, ev.row⟩ = true)
    (hpw : s.mergedTiles.Pairwise fun a b => ¬(a.row = b.row ∧ a.col = b.col)) :
    wfG (processCell v s c).merged ∧
    (∀ ev ∈ (processCell v s c).mergedTiles, withinBounds ⟨ev.col, ev.row⟩ = true ∧
      mergedAt (processCell v s c).merged ⟨ev.col, ev.row⟩ = true) ∧
    (processCell v s c).mergedTiles.Pairwise fun a b => ¬(a.row = b.row ∧ a.col = b.col) := by
  rcases processCell_cases v s c with hA | ⟨h0, hinb, hval, hmg, heq⟩ | ⟨_, _, heq⟩
  · rw [hA]; exact ⟨hwm, hev, hpw⟩
  · rw [heq]
    dsimp only
    refine ⟨wfG_gset s.merged _ true hwm hinb, ?_, ?_⟩
    · intro ev hmem
      rcases List.mem_append.mp hmem with hold | hnew
      · obtain ⟨hoinb, homg⟩ := hev ev hold
        refine ⟨hoinb, ?_⟩
        by_cases hsame : (⟨ev.col, ev.row⟩ : Cell) = (findFarthestPosition s.grid v GRID_SIZE c).2
        · rw [hsame]
          exact gget_gset_self false s.merged _ true hwm hinb
        · rw [mergedAt, setMerged, gget_gset_ne false s.merged _ _ true hwm hinb hoinb hsame]
          exact homg
      · rw [List.mem_singleton] at hnew
        subst hnew
        refine ⟨hinb, ?_⟩
        exact gget_gset_self false s.merged _ true hwm hinb
    · rw [List.pairwise_append]
      refine ⟨hpw, List.pairwise_singleton _ _, ?_⟩
      intro a ha b hb
      rw [List.mem_singleton] at hb
      subst hb
      dsimp only
      intro hcon
      obtain ⟨haib, hamg⟩ := hev a ha
      have hcell : (⟨a.col, a.row⟩ : Cell) = (findFarthestPosition s.grid v GRID_SIZE c).2 := by
        ext
        · exact hcon.2
        · exact hcon.1
      rw [hcell] at hamg
      rw [hamg] at hmg
      exact Bool.true_eq_false.mp hmg
  · rw [heq]
    exact ⟨hwm, hev, hpw⟩

/-- The slide-and-merge phase conserves the total tile value and its score
gain equals the sum of the merge-event values. -/
theorem moveResolve_conserve (g : Grid) (d : Direction) (hw : wfG g) :
    wfG (moveResolve g d).grid ∧
    gridSum (moveResolve g d).grid = gridSum g ∧
    (moveResolve g d).scoreGain = sumVals (moveResolve g d).mergedTiles := by
  have hv := unitVec_vector d
  unfold moveResolve
  refine foldl_preserve (processCell (vector d))
    (fun s => wfG s.grid ∧ gridSum s.grid = gridSum g ∧ s.scoreGain = sumVals s.mergedTiles)
    (traversalCells (buildTraversals (vector d))) _ ?_ ⟨hw, rfl, rfl⟩
  intro x hx b hb
  have hc := traversal_mem_inb (vector d) x hx
  obtain ⟨hw2, hsum, hrel⟩ := processCell_conserve (vector d) hv b x hc hb.1
  refine ⟨hw2, by rw [hsum]; exact hb.2.1, ?_⟩
  have := hb.2.2
  omega

/-- If the whole slide-and-merge phase reports moved = false, it changed
nothing at all: the grid, marker grid, events and score gain are exactly
the initial ones. -/
theorem moveResolve_unmoved (g : Grid) (d : Direction)
    (h : (moveResolve g d).moved = false) :
    moveResolve g d =
      { grid := g, merged := initMerged, moved := false, mergedTiles := [], scoreGain := 0 } := by
  unfold moveResolve at h ⊢
  refine foldl_preserve (processCell (vector d))
    (fun s => s.moved = false → s =
      { grid := g, merged := initMerged, moved := false, mergedTiles := [], scoreGain := 0 })
    (traversalCells (buildTraversals (vector d))) _ ?_ (fun _ => rfl) h
  intro x _ b hb hmoved
  have hstep := processCell_moved_false (vector d) b x hmoved
  rw [hstep] at hmoved ⊢
  exact hb hmoved

/-- The merge events recorded by the slide-and-merge phase target pairwise
distinct cells. -/
theorem moveResolve_pairwise (g : Grid) (d : Direction) :
    (moveResolve g d).mergedTiles.Pairwise fun a b => ¬(a.row = b.row ∧ a.col = b.col) := by
  unfold moveResolve
  refine (foldl_preserve (processCell (vector d))
    (fun s => wfG s.merged ∧
      (∀ ev ∈ s.mergedTiles, withinBounds ⟨ev.col, ev.row⟩ = true ∧
        mergedAt s.merged ⟨ev.col, ev.row⟩ = true) ∧
      s.mergedTiles.Pairwise fun a b => ¬(a.row = b.row ∧ a.col = b.col))
    (traversalCells (buildTraversals (vector d))) _ ?_ ⟨?_, ?_, ?_⟩).2.2
  · intro x _ b hb
    exact processCell_mergeInv (vector d) b x hb.1 hb.2.1 hb.2.2
  · constructor
    · simp [initMerged, GRID_SIZE]
    · intro row hrow
      rw [List.eq_of_mem_replicate hrow]
      simp [GRID_SIZE]
  · intro ev hmem
    simp at hmem
  · exact List.Pairwise.nil

/-! The instrumented interpreter agrees with the direct one, which shows
every grid access of the move loop is in bounds. -/

theorem fppChecked_eq (g : Grid) (v : Cell) :
    ∀ (fuel : Nat) (c : Cell),
      findFarthestPositionChecked g v fuel c = some (findFarthestPosition g v fuel c) := by
  intro fuel
  induction fuel with
  | zero => intro c; rfl
  | succ n ih =>
    intro c
    simp only [findFarthestPosition, findFarthestPositionChecked]
    by_cases hw : withinBounds (step c v) = true <;>
      by_cases hz : (getCell g (step c v) == 0) = true <;>
        simp [getCellM, hw, hz, ih]

theorem processCellChecked_eq (v : Cell) (hv : UnitVec v) (s : MoveState) (c : Cell)
    (hc : withinBounds c = true) :
    processCellChecked v s c = some (processCell v s c) := by
  have hinb1 := (fpp_props s.grid v hv c hc).2.1
  unfold processCellChecked processCell
  rw [fppChecked_eq]
  by_cases h0 : getCell s.grid c ≠ 0 <;>
    by_cases hw : withinBounds (findFarthestPosition s.grid v GRID_SIZE c).2 = true <;>
      by_cases hz : (getCell s.grid (findFarthestPosition s.grid v GRID_SIZE c).2 ==
        getCell s.grid c) = true <;>
        by_cases hm : (mergedAt s.merged (findFarthestPosition s.grid v GRID_SIZE c).2) = true <;>
          by_cases hf : (findFarthestPosition s.grid v GRID_SIZE c).1 = c <;>
            simp [getCellM, setCellM, hc, h0, hw, hz, hm, hf, hinb1]

theorem foldlM_processCell (v : Cell) (hv : UnitVec v) :
    ∀ (l : List Cell) (s : MoveState), (∀ c ∈ l, withinBounds c = true) →
      List.foldlM (processCellChecked v) s l = some (List.foldl (processCell v) s l) := by
  intro l
  induction l with
  | nil => intro s _; rfl
  | cons x xs ih =>
    intro s hmem
    rw [List.foldlM_cons, processCellChecked_eq v hv s x (hmem x (List.mem_cons_self x xs))]
    exact ih _ (fun c hcm => hmem c (List.mem_cons_of_mem x hcm))

theorem moveResolveChecked_eq (g : Grid) (d : Direction) :
    moveResolveChecked g d = some (moveResolve g d) := by
  unfold moveResolveChecked moveResolve
  exact foldlM_processCell (vector d) (unitVec_vector d) _ _
    (fun c hcm => traversal_mem_inb (vector d) c hcm)

/-! Terminal detection: movesAvailable agrees with the declarative
description. -/

/-- Two positions are orthogonally adjacent (right, left, down or up
neighbours). -/
def Adjacent (r c r2 c2 : Nat) : Prop :=
  (r2 = r ∧ c2 = c + 1) ∨ (r2 = r ∧ c = c2 + 1) ∨
  (c2 = c ∧ r2 = r + 1) ∨ (c2 = c ∧ r = r2 + 1)

theorem movesAvailable_iff (g : Grid) :
    movesAvailable g = true ↔
      (∃ r c, r < GRID_SIZE ∧ c < GRID_SIZE ∧ cellAt g r c = 0) ∨
      (∃ r c r2 c2, r < GRID_SIZE ∧ c < GRID_SIZE ∧ r2 < GRID_SIZE ∧ c2 < GRID_SIZE ∧
        Adjacent r c r2 c2 ∧ cellAt g r c ≠ 0 ∧ cellAt g r c = cellAt g r2 c2) := by
  unfold movesAvailable
  simp only [Bool.or_eq_true, List.any_eq_true, List.mem_range, Bool.and_eq_true,
    beq_iff_eq, decide_eq_true_eq, GRID_SIZE]
  constructor
  · rintro (⟨r, hr, c, hcc, hz⟩ | ⟨r, hr, c, hcc, hpair⟩)
    · exact Or.inl ⟨r, c, hr, hcc, hz⟩
    · by_cases hemp : ∃ r2 c2, r2 < 4 ∧ c2 < 4 ∧ cellAt g r2 c2 = 0
      · obtain ⟨r2, c2, hr2, hc2, hz2⟩ := hemp
        exact Or.inl ⟨r2, c2, hr2, hc2, hz2⟩
      · push_neg at hemp
        rcases hpair with ⟨hr3, heq⟩ | ⟨hc3, heq⟩
        · exact Or.inr ⟨r, c, r + 1, c, hr, hcc, by omega, hcc,
            Or.inr (Or.inr (Or.inl ⟨rfl, rfl⟩)), hemp r c hr hcc, heq.symm⟩
        · exact Or.inr ⟨r, c, r, c + 1, hr, hcc, hr, by omega,
            Or.inl ⟨rfl, rfl⟩, hemp r c hr hcc, heq.symm⟩
  · rintro (⟨r, c, hr, hcc, hz⟩ | ⟨r, c, r2, c2, hr, hcc, hr2, hc2, hadj, hnz, heq⟩)
    · exact Or.inl ⟨r, hr, c, hcc, hz⟩
    · right
      rcases hadj with ⟨h1, h2⟩ | ⟨h1, h2⟩ | ⟨h1, h2⟩ | ⟨h1, h2⟩
      · refine ⟨r, hr, c, hcc, Or.inr ⟨by omega, ?_⟩⟩
        have heq2 := heq
        rw [h1, h2] at heq2
        exact heq2.symm
      · refine ⟨r, hr, c2, hc2, Or.inr ⟨by omega, ?_⟩⟩
        have heq2 := heq
        rw [h1] at heq2
        rw [h2] at heq2
        exact heq2
      · refine ⟨r, hr, c, hcc, Or.inl ⟨by omega, ?_⟩⟩
        have heq2 := heq
        rw [h1, h2] at heq2
        exact heq2.symm
      · refine ⟨r2, hr2, c, hcc, Or.inl ⟨by omega, ?_⟩⟩
        have heq2 := heq
        rw [h1] at heq2
        rw [h2] at heq2
        exact heq2

/-! Power-of-two tile values. -/

theorem isPowTwoAux_iff : ∀ (fuel n : Nat), n ≤ fuel →
    (isPowTwoAux fuel n = true ↔ ∃ k, 1 ≤ k ∧ n = 2 ^ k) := by
  intro fuel
  induction fuel with
  | zero =>
    intro n hn
    have hn0 : n = 0 := by omega
    subst hn0
    constructor
    · intro hcon
      simp [isPowTwoAux] at hcon
    · rintro ⟨k, hk, hcon⟩
      have := pow_pos (by omega : (0 : Nat) < 2) k
      omega
  | succ f ih =>
    intro n hn
    match n with
    | 0 =>
      constructor
      · intro hcon
        simp [isPowTwoAux] at hcon
      · rintro ⟨k, hk, hcon⟩
        have := pow_pos (by omega : (0 : Nat) < 2) k
        omega
    | 1 =>
      constructor
      · intro hcon
        simp [isPowTwoAux] at hcon
      · rintro ⟨k, hk, hcon⟩
        have h2 : 2 ^ 1 ≤ 2 ^ k := Nat.pow_le_pow_right (by omega) hk
        rw [pow_one] at h2
        omega
    | 2 =>
      constructor
      · intro _
        exact ⟨1, le_refl 1, by rw [pow_one]⟩
      · intro _
        rfl
    | m + 3 =>
      show ((m + 3) % 2 == 0 && isPowTwoAux f ((m + 3) / 2)) = true ↔ _
      rw [Bool.and_eq_true, beq_iff_eq, ih ((m + 3) / 2) (by omega)]
      constructor
      · rintro ⟨heven, k, hk, hdiv⟩
        refine ⟨k + 1, by omega, ?_⟩
        have h2 : m + 3 = 2 * ((m + 3) / 2) := by omega
        rw [h2, hdiv, pow_succ]
        ring
      · rintro ⟨k, hk, hpow⟩
        have hk2 : 2 ≤ k := by
          by_contra hcon
          have hk1 : k = 1 := by omega
          rw [hk1, pow_one] at hpow
          omega
        obtain ⟨j, rfl⟩ : ∃ j, k = j + 1 := ⟨k - 1, by omega⟩
        rw [pow_succ'] at hpow
        refine ⟨by omega, j, by omega, by omega⟩

theorem isPowTwoTile_iff (n : Nat) : isPowTwoTile n = true ↔ ∃ k, 1 ≤ k ∧ n = 2 ^ k :=
  isPowTwoAux_iff n n (le_refl n)

theorem isPowTwoTile_double (n : Nat) (h : isPowTwoTile n = true) :
    isPowTwoTile (n * 2) = true := by
  rw [isPowTwoTile_iff] at h ⊢
  obtain ⟨k, hk, rfl⟩ := h
  exact ⟨k + 1, by omega, by rw [pow_succ]⟩

theorem powTwoInv_iff (g : Grid) :
    powTwoInv g = true ↔ ∀ c : Cell, withinBounds c = true →
      getCell g c = 0 ∨ isPowTwoTile (getCell g c) = true := by
  unfold powTwoInv
  simp only [List.all_eq_true, List.mem_range, Bool.or_eq_true, beq_iff_eq]
  constructor
  · intro h c hcb
    have hxy := (withinBounds_iff c).mp hcb
    have hy : c.y.toNat < GRID_SIZE := by simp only [GRID_SIZE]; omega
    have hx : c.x.toNat < GRID_SIZE := by simp only [GRID_SIZE]; omega
    have h2 := h c.y.toNat hy c.x.toNat hx
    unfold cellAt at h2
    rw [cell_eta c hcb] at h2
    exact h2
  · intro h r hr c2 hc2
    exact h ⟨(c2 : Int), (r : Int)⟩ (withinBounds_nat c2 r hc2 hr)

theorem powTwoInv_setCell (g : Grid) (c : Cell) (val : Nat) (hw : wfG g)
    (hc : withinBounds c = true) (hg : powTwoInv g = true)
    (hval : val = 0 ∨ isPowTwoTile val = true) : powTwoInv (setCell g c val) = true := by
  rw [powTwoInv_iff] at hg ⊢
  intro e heb
  by_cases he : e = c
  · subst he
    rw [getCell_setCell_self _ _ _ hw heb]
    exact hval
  · rw [getCell_setCell_ne _ _ _ _ hw hc heb he]
    exact hg e heb

theorem processCell_powTwo (v : Cell) (hv : UnitVec v) (s : MoveState) (c : Cell)
    (hc : withinBounds c = true) (hw : wfG s.grid) (hp : powTwoInv s.grid = true) :
    powTwoInv (processCell v s c).grid = true := by
  rcases processCell_cases v s c with h | ⟨h0, hinb, hval, hmg, heq⟩ | ⟨h0, hne, heq⟩
  · rw [h]; exact hp
  · have htp : isPowTwoTile (getCell s.grid c) = true := by
      rcases (powTwoInv_iff s.grid).mp hp c hc with hz | hpw
      · exact absurd hz h0
      · exact hpw
    rw [heq]
    dsimp only
    exact powTwoInv_setCell _ c 0 (wfG_setCell _ _ _ hw hinb) hc
      (powTwoInv_setCell _ _ _ hw hinb hp (Or.inr (isPowTwoTile_double _ htp)))
      (Or.inl rfl)
  · have htp : isPowTwoTile (getCell s.grid c) = true := by
      rcases (powTwoInv_iff s.grid).mp hp c hc with hz | hpw
      · exact absurd hz h0
      · exact hpw
    have hinb1 := (fpp_props s.grid v hv c hc).2.1
    rw [heq]
    dsimp only
    exact powTwoInv_setCell _ c 0 (wfG_setCell _ _ _ hw hinb1) hc
      (powTwoInv_setCell _ _ _ hw hinb1 hp (Or.inr htp))
      (Or.inl rfl)

theorem moveResolve_powTwo (g : Grid) (d : Direction) (hw : wfG g)
    (hp : powTwoInv g = true) : powTwoInv (moveResolve g d).grid = true := by
  have hv := unitVec_vector d
  unfold moveResolve
  refine (foldl_preserve (processCell (vector d))
    (fun s => wfG s.grid ∧ powTwoInv s.grid = true)
    (traversalCells (buildTraversals (vector d))) _ ?_ ⟨hw, hp⟩).2
  intro x hx b hb
  have hc := traversal_mem_inb (vector d) x hx
  exact ⟨(processCell_conserve (vector d) hv b x hc hb.1).1,
    processCell_powTwo (vector d) hv b x hc hb.1 hb.2⟩

theorem emptyCellsList_mem_inb (g : Grid) (c : Cell) (hc : c ∈ emptyCellsList g) :
    withinBounds c = true := by
  unfold emptyCellsList at hc
  rw [List.mem_flatMap] at hc
  obtain ⟨r, hr, hc⟩ := hc
  rw [List.mem_filterMap] at hc
  obtain ⟨col, hcol, heq⟩ := hc
  rw [List.mem_range] at hr hcol
  split at heq
  · rw [Option.some_inj] at heq
    rw [← heq]
    exact withinBounds_nat col r hcol hr
  · exact absurd heq (by simp)

theorem spawn_cell_inb (g : Grid) (p : Nat)
    (hlen : 0 < (emptyCellsList g).length) :
    withinBounds ((emptyCellsList g).getD (p % (emptyCellsList g).length) ⟨0, 0⟩) = true :=
  emptyCellsList_mem_inb g _
    (getD_mem ⟨0, 0⟩ (emptyCellsList g) _ (Nat.mod_lt _ hlen))

theorem wfG_spawnTile (g : Grid) (p : Nat) (t : Bool) (hw : wfG g) :
    wfG (spawnTile g p t) := by
  simp only [spawnTile]
  by_cases hlen : 0 < (emptyCellsList g).length
  · rw [if_pos hlen]
    exact wfG_setCell _ _ _ hw (spawn_cell_inb g p hlen)
  · rw [if_neg hlen]
    exact hw

theorem powTwoInv_spawnTile (g : Grid) (p : Nat) (t : Bool) (hw : wfG g)
    (hp : powTwoInv g = true) : powTwoInv (spawnTile g p t) = true := by
  simp only [spawnTile]
  by_cases hlen : 0 < (emptyCellsList g).length
  · rw [if_pos hlen]
    refine powTwoInv_setCell _ _ _ hw (spawn_cell_inb g p hlen) hp (Or.inr ?_)
    cases t <;> decide
  · rw [if_neg hlen]
    exact hp

theorem wfG_emptyGrid : wfG emptyGrid := by
  constructor
  · simp [emptyGrid, GRID_SIZE]
  · intro row hrow
    rw [List.eq_of_mem_replicate hrow]
    simp [GRID_SIZE]

/-! Session-level lemmas. -/

theorem moveSession_unmoved (s : Session) (d : Direction) (p : Nat) (t : Bool)
    (h : (moveResolve s.grid d).moved = false) :
    moveSession s d p t =
      { session := s, changed := false, mergeEvents := [],
        wonSignal := false, lostSignal := false } := by
  have hres := moveResolve_unmoved s.grid d h
  simp [moveSession, hres]

theorem moveSession_changed (s : Session) (d : Direction) (p : Nat) (t : Bool)
    (h : (moveResolve s.grid d).moved = true) :
    (moveSession s d p t).changed = true ∧
    (moveSession s d p t).mergeEvents = (moveResolve s.grid d).mergedTiles ∧
    (moveSession s d p t).session.score = s.score + (moveResolve s.grid d).scoreGain ∧
    (moveSession s d p t).session.grid = spawnTile (moveResolve s.grid d).grid p t := by
  simp only [moveSession, h, if_true]
  split
  · simp
  · split <;> simp

theorem moveSession_won_cases (s : Session) (d : Direction) (p : Nat) (t : Bool) :
    ((moveSession s d p t).session.hasWon = s.hasWon ∧
      (moveSession s d p t).wonSignal = false) ∨
    (s.hasWon = false ∧ (moveSession s d p t).session.hasWon = true ∧
      (moveSession s d p t).wonSignal = true) := by
  by_cases hm : (moveResolve s.grid d).moved = true
  · simp only [moveSession, hm, if_true]
    by_cases hw : (!s.hasWon && hasReached2048 (spawnTile (moveResolve s.grid d).grid p t)) = true
    · right
      rw [Bool.and_eq_true, Bool.not_eq_true'] at hw
      simp [hw.1, hw.2]
    · left
      rw [if_neg hw]
      split <;> simp
  · rw [Bool.not_eq_true] at hm
    rw [moveSession_unmoved s d p t hm]
    left
    exact ⟨rfl, rfl⟩

theorem moveSession_rng_free (s : Session) (d : Direction) (p : Nat) (t : Bool) :
    (moveSession s d p t).changed = (moveResolve s.grid d).moved ∧
    (moveSession s d p t).mergeEvents = (moveResolve s.grid d).mergedTiles ∧
    (moveSession s d p t).session.grid =
      (if (moveResolve s.grid d).moved then spawnTile (moveResolve s.grid d).grid p t
        else (moveResolve s.grid d).grid) := by
  by_cases hm : (moveResolve s.grid d).moved = true
  · obtain ⟨h1, h2, _, h4⟩ := moveSession_changed s d p t hm
    refine ⟨?_, h2, ?_⟩
    · rw [hm]
      exact h1
    · rw [if_pos hm]
      exact h4
  · rw [Bool.not_eq_true] at hm
    have hres := moveResolve_unmoved s.grid d hm
    rw [moveSession_unmoved s d p t hm, hm]
    refine ⟨rfl, ?_, ?_⟩
    · rw [hres]
    · rw [if_neg (by simp), hres]

instance {α : Type} (g : List (List α)) : Decidable (wfG g) :=
  decidable_of_iff (g.length = GRID_SIZE ∧ ∀ row ∈ g, row.length = GRID_SIZE) Iff.rfl

instance (v : Cell) : Decidable (UnitVec v) :=
  decidable_of_iff (v = ⟨0, -1⟩ ∨ v = ⟨0, 1⟩ ∨ v = ⟨-1, 0⟩ ∨ v = ⟨1, 0⟩) Iff.rfl

/-! Claim theorems. -/

/-- C1, counterexample to the claim as stated: in the move sliding
[2,2,0,0] left at least one merge occurs, yet the grid total after the
move (4) is not the grid total before (4) plus the sum of the merge
resulting values (4): merges conserve the grid total, and it is the score,
not the grid total, that increases by the merge values. -/
theorem claim_C1_counterexample :
    (moveResolve [[2,2,0,0],[0,0,0,0],[0,0,0,0],[0,0,0,0]] Direction.left).mergedTiles ≠ [] ∧
    ¬(gridSum (moveResolve [[2,2,0,0],[0,0,0,0],[0,0,0,0],[0,0,0,0]] Direction.left).grid =
      gridSum [[2,2,0,0],[0,0,0,0],[0,0,0,0],[0,0,0,0]] +
      sumVals (moveResolve [[2,2,0,0],[0,0,0,0],[0,0,0,0],[0,0,0,0]] Direction.left).mergedTiles) := by
  decide

/-- C1, amended: for every move on a well-formed grid, the sum of all tile
values immediately after the move resolves (before the new tile is
spawned) equals the sum before the move, and the score gain of the move
equals the sum of the merge events resulting values. -/
theorem claim_C1_conservation (g : Grid) (d : Direction) (hw : wfG g) :
    gridSum (moveResolve g d).grid = gridSum g ∧
    (moveResolve g d).scoreGain = sumVals (moveResolve g d).mergedTiles :=
  ⟨(moveResolve_conserve g d hw).2.1, (moveResolve_conserve g d hw).2.2⟩

theorem claim_C1_witness :
    gridSum (moveResolve [[2,2,0,0],[0,0,0,0],[0,0,0,0],[0,0,0,0]] Direction.left).grid =
      gridSum [[2,2,0,0],[0,0,0,0],[0,0,0,0],[0,0,0,0]] ∧
    (moveResolve [[2,2,0,0],[0,0,0,0],[0,0,0,0],[0,0,0,0]] Direction.left).scoreGain =
      sumVals (moveResolve [[2,2,0,0],[0,0,0,0],[0,0,0,0],[0,0,0,0]] Direction.left).mergedTiles :=
  claim_C1_conservation [[2,2,0,0],[0,0,0,0],[0,0,0,0],[0,0,0,0]] Direction.left (by decide)

/-- C2: for any single move in any direction and from any board state, no
cell receives more than one merge (the recorded merge events target
pairwise distinct cells), and in particular the row [2,2,2,0] sliding left
yields [4,2,0,0]. -/
theorem claim_C2_merge_once :
    (∀ (g : Grid) (d : Direction),
      (moveResolve g d).mergedTiles.Pairwise fun a b => ¬(a.row = b.row ∧ a.col = b.col)) ∧
    (moveResolve [[2,2,2,0],[0,0,0,0],[0,0,0,0],[0,0,0,0]] Direction.left).grid =
      [[4,2,0,0],[0,0,0,0],[0,0,0,0],[0,0,0,0]] :=
  ⟨fun g d => moveResolve_pairwise g d, by decide⟩

/-- C3: the traversal index sequences are reversed exactly for the
rightward x component and the downward y component (ascending otherwise),
and consequently the row [0,2,2,2] sliding right yields [0,0,2,4]. -/
theorem claim_C3_traversal :
    (buildTraversals (vector Direction.right)).x = [3,2,1,0] ∧
    (buildTraversals (vector Direction.right)).y = [0,1,2,3] ∧
    (buildTraversals (vector Direction.down)).y = [3,2,1,0] ∧
    (buildTraversals (vector Direction.down)).x = [0,1,2,3] ∧
    (buildTraversals (vector Direction.left)).x = [0,1,2,3] ∧
    (buildTraversals (vector Direction.left)).y = [0,1,2,3] ∧
    (buildTraversals (vector Direction.up)).x = [0,1,2,3] ∧
    (buildTraversals (vector Direction.up)).y = [0,1,2,3] ∧
    (moveResolve [[0,2,2,2],[0,0,0,0],[0,0,0,0],[0,0,0,0]] Direction.right).grid =
      [[0,0,2,4],[0,0,0,0],[0,0,0,0],[0,0,0,0]] := by
  decide

/-- C4: a move whose resolution produces no tile movement reports
changed = false and leaves the session exactly as it was: same grid byte
for byte, same score, and no tile is spawned. -/
theorem claim_C4_rejected_no_change (s : Session) (d : Direction) (p : Nat) (t : Bool)
    (h : (moveSession s d p t).changed = false) :
    (moveSession s d p t).session = s ∧
    (moveSession s d p t).session.grid = s.grid ∧
    (moveSession s d p t).session.score = s.score := by
  by_cases hm : (moveResolve s.grid d).moved = true
  · have := (moveSession_changed s d p t hm).1
    rw [h] at this
    exact absurd this (by simp)
  · rw [Bool.not_eq_true] at hm
    rw [moveSession_unmoved s d p t hm]
    exact ⟨rfl, rfl, rfl⟩

theorem claim_C4_witness :
    (moveSession ⟨[[2,4,2,4],[4,2,4,2],[2,4,2,4],[4,2,4,2]], 0, false⟩
        Direction.left 0 true).session =
      ⟨[[2,4,2,4],[4,2,4,2],[2,4,2,4],[4,2,4,2]], 0, false⟩ :=
  (claim_C4_rejected_no_change _ Direction.left 0 true (by decide)).1

/-- C5, counterexample to the claim as stated: the farthest-position
search of game.js stops at any non-empty cell and never consults the
merged-marker grid. Sliding [2,2,4,0] left first merges the two 2s into
cell (0,0), leaving grid row [4,0,4,0] with cell (0,0) marked merged; for
the tile at (2,0) the code search stops before the occupied cell (0,0)
and returns farthest (1,0), next (0,0), whereas the walk described by the
claim (stopping only at a non-empty, not-yet-merged-into cell) would walk
over the merged cell and return farthest (0,0), next (-1,0). -/
theorem claim_C5_counterexample :
    ((traversalCells (buildTraversals (vector Direction.left))).take 2).foldl
        (processCell (vector Direction.left))
        { grid := [[2,2,4,0],[0,0,0,0],[0,0,0,0],[0,0,0,0]], merged := initMerged,
          moved := false, mergedTiles := [], scoreGain := 0 } =
      { grid := [[4,0,4,0],[0,0,0,0],[0,0,0,0],[0,0,0,0]],
        merged := [[true,false,false,false],[false,false,false,false],
          [false,false,false,false],[false,false,false,false]],
        moved := true, mergedTiles := [⟨0, 0, 4⟩], scoreGain := 4 } ∧
    findFarthestPosition [[4,0,4,0],[0,0,0,0],[0,0,0,0],[0,0,0,0]] ⟨-1, 0⟩ GRID_SIZE ⟨2, 0⟩ =
      (⟨1, 0⟩, ⟨0, 0⟩) ∧
    farthestSpecSearch [[4,0,4,0],[0,0,0,0],[0,0,0,0],[0,0,0,0]]
      [[true,false,false,false],[false,false,false,false],
        [false,false,false,false],[false,false,false,false]] ⟨-1, 0⟩ GRID_SIZE ⟨2, 0⟩ =
      (⟨0, 0⟩, ⟨-1, 0⟩) ∧
    findFarthestPosition [[4,0,4,0],[0,0,0,0],[0,0,0,0],[0,0,0,0]] ⟨-1, 0⟩ GRID_SIZE ⟨2, 0⟩ ≠
      farthestSpecSearch [[4,0,4,0],[0,0,0,0],[0,0,0,0],[0,0,0,0]]
        [[true,false,false,false],[false,false,false,false],
          [false,false,false,false],[false,false,false,false]] ⟨-1, 0⟩ GRID_SIZE ⟨2, 0⟩ := by
  decide

/-- C5, amended: for any in-bounds start cell and any of the four movement
vectors, the farthest-position search walks step-by-step along the vector
through in-bounds empty cells, and stops as soon as the next step would
leave the board or land on a non-empty cell (whether or not that cell has
already received a merge): the landing spot is the last cell reached and
next is the cell immediately beyond it, the first
non-empty-or-out-of-bounds cell. -/
theorem claim_C5_farthest_search (g : Grid) (v : Cell) (hv : UnitVec v) (c : Cell)
    (hc : withinBounds c = true) :
    (findFarthestPosition g v GRID_SIZE c).2 =
      step (findFarthestPosition g v GRID_SIZE c).1 v ∧
    (∃ k : Nat, (findFarthestPosition g v GRID_SIZE c).1 = ray c v k ∧
      ∀ j : Nat, 1 ≤ j → j ≤ k →
        withinBounds (ray c v j) = true ∧ getCell g (ray c v j) = 0) ∧
    (withinBounds (findFarthestPosition g v GRID_SIZE c).2 = false ∨
      getCell g (findFarthestPosition g v GRID_SIZE c).2 ≠ 0) := by
  refine fpp_walk g v hv GRID_SIZE c hc ?_
  have := room_bounds v c hv hc
  simp only [GRID_SIZE, Nat.cast_ofNat]
  omega

theorem claim_C5_witness :
    (findFarthestPosition [[0,2,0,0],[0,0,0,0],[0,0,0,0],[0,0,0,0]] ⟨1, 0⟩ GRID_SIZE ⟨0, 0⟩).2 =
      step (findFarthestPosition [[0,2,0,0],[0,0,0,0],[0,0,0,0],[0,0,0,0]] ⟨1, 0⟩ GRID_SIZE
        ⟨0, 0⟩).1 ⟨1, 0⟩ ∧
    (∃ k : Nat, (findFarthestPosition [[0,2,0,0],[0,0,0,0],[0,0,0,0],[0,0,0,0]] ⟨1, 0⟩ GRID_SIZE
        ⟨0, 0⟩).1 = ray ⟨0, 0⟩ ⟨1, 0⟩ k ∧
      ∀ j : Nat, 1 ≤ j → j ≤ k →
        withinBounds (ray ⟨0, 0⟩ ⟨1, 0⟩ j) = true ∧
        getCell [[0,2,0,0],[0,0,0,0],[0,0,0,0],[0,0,0,0]] (ray ⟨0, 0⟩ ⟨1, 0⟩ j) = 0) ∧
    (withinBounds (findFarthestPosition [[0,2,0,0],[0,0,0,0],[0,0,0,0],[0,0,0,0]] ⟨1, 0⟩
        GRID_SIZE ⟨0, 0⟩).2 = false ∨
      getCell [[0,2,0,0],[0,0,0,0],[0,0,0,0],[0,0,0,0]]
        (findFarthestPosition [[0,2,0,0],[0,0,0,0],[0,0,0,0],[0,0,0,0]] ⟨1, 0⟩ GRID_SIZE
          ⟨0, 0⟩).2 ≠ 0) :=
  claim_C5_farthest_search [[0,2,0,0],[0,0,0,0],[0,0,0,0],[0,0,0,0]] ⟨1, 0⟩ (by decide)
    ⟨0, 0⟩ (by decide)

/-- C6: once hasWon is set it stays set across any further move and the
win signal is never emitted again; the win signal is emitted only on the
move that first sets hasWon; and starting a new game is what clears the
flag. -/
theorem claim_C6_win_sticky :
    (∀ (s : Session) (d : Direction) (p : Nat) (t : Bool),
      s.hasWon = true → (moveSession s d p t).session.hasWon = true ∧
        (moveSession s d p t).wonSignal = false) ∧
    (∀ (s : Session) (d : Direction) (p : Nat) (t : Bool),
      (moveSession s d p t).wonSignal = true →
        s.hasWon = false ∧ (moveSession s d p t).session.hasWon = true) ∧
    (∀ (p1 : Nat) (v1 : Bool) (p2 : Nat) (v2 : Bool),
      (startNewGame p1 v1 p2 v2).hasWon = false) := by
  refine ⟨?_, ?_, ?_⟩
  · intro s d p t hwon
    rcases moveSession_won_cases s d p t with ⟨h1, h2⟩ | ⟨h1, _, _⟩
    · rw [h1, hwon]
      exact ⟨rfl, h2⟩
    · rw [hwon] at h1
      exact absurd h1 (by simp)
  · intro s d p t hsig
    rcases moveSession_won_cases s d p t with ⟨_, h2⟩ | ⟨h1, h2, _⟩
    · rw [hsig] at h2
      exact absurd h2 (by simp)
    · exact ⟨h1, h2⟩
  · intro p1 v1 p2 v2
    rfl

theorem claim_C6_witness :
    (moveSession ⟨[[2048,2,0,0],[0,0,0,0],[0,0,0,0],[0,0,0,0]], 0, true⟩
        Direction.left 0 true).session.hasWon = true ∧
    (moveSession ⟨[[2048,2,0,0],[0,0,0,0],[0,0,0,0],[0,0,0,0]], 0, true⟩
        Direction.left 0 true).wonSignal = false :=
  claim_C6_win_sticky.1 _ Direction.left 0 true rfl

/-- C7: movesAvailable returns true exactly when the board has an empty
cell or a pair of orthogonally adjacent equal tiles; in particular a full
board reports true exactly when it has an adjacent equal pair. -/
theorem claim_C7_moves_available (g : Grid) :
    movesAvailable g = true ↔
      (∃ r c, r < GRID_SIZE ∧ c < GRID_SIZE ∧ cellAt g r c = 0) ∨
      (∃ r c r2 c2, r < GRID_SIZE ∧ c < GRID_SIZE ∧ r2 < GRID_SIZE ∧ c2 < GRID_SIZE ∧
        Adjacent r c r2 c2 ∧ cellAt g r c ≠ 0 ∧ cellAt g r c = cellAt g r2 c2) :=
  movesAvailable_iff g

/-- C8: every non-empty cell always holds a power of two that is at least
2: the tile test recognises exactly such values, a new game satisfies the
invariant for any random draws, and spawning and move resolution preserve
it on well-formed grids. -/
theorem claim_C8_power_of_two :
    (∀ n : Nat, isPowTwoTile n = true ↔ ∃ k, 1 ≤ k ∧ n = 2 ^ k) ∧
    (∀ (p1 : Nat) (v1 : Bool) (p2 : Nat) (v2 : Bool),
      powTwoInv (startNewGame p1 v1 p2 v2).grid = true) ∧
    (∀ (g : Grid) (p : Nat) (t : Bool), wfG g → powTwoInv g = true →
      powTwoInv (spawnTile g p t) = true) ∧
    (∀ (g : Grid) (d : Direction), wfG g → powTwoInv g = true →
      powTwoInv (moveResolve g d).grid = true) := by
  refine ⟨isPowTwoTile_iff, ?_, ?_, ?_⟩
  · intro p1 v1 p2 v2
    unfold startNewGame
    exact powTwoInv_spawnTile _ p2 v2 (wfG_spawnTile _ p1 v1 wfG_emptyGrid)
      (powTwoInv_spawnTile _ p1 v1 wfG_emptyGrid (by decide))
  · intro g p t hw hp
    exact powTwoInv_spawnTile g p t hw hp
  · intro g d hw hp
    exact moveResolve_powTwo g d hw hp

theorem claim_C8_witness :
    powTwoInv (spawnTile [[2,4,0,0],[0,0,0,0],[0,0,0,0],[0,0,0,0]] 5 false) = true ∧
    powTwoInv (moveResolve [[2,2,4,0],[0,0,0,0],[0,0,0,0],[0,0,0,2048]]
      Direction.left).grid = true :=
  ⟨claim_C8_power_of_two.2.2.1 _ 5 false (by decide) (by decide),
    claim_C8_power_of_two.2.2.2 _ Direction.left (by decide) (by decide)⟩

/-- C9: the slide-and-merge phase is deterministic and consults no
randomness: two moves from the same session state with different random
draws report the same changed flag and the same merge-event list, those
agree with the pure resolution of the starting grid, and the random draws
enter only through the spawn applied after resolution. -/
theorem claim_C9_deterministic (s : Session) (d : Direction) (p1 : Nat) (t1 : Bool)
    (p2 : Nat) (t2 : Bool) :
    (moveSession s d p1 t1).changed = (moveSession s d p2 t2).changed ∧
    (moveSession s d p1 t1).mergeEvents = (moveSession s d p2 t2).mergeEvents ∧
    (moveSession s d p1 t1).changed = (moveResolve s.grid d).moved ∧
    (moveSession s d p1 t1).mergeEvents = (moveResolve s.grid d).mergedTiles ∧
    (moveSession s d p1 t1).session.grid =
      (if (moveResolve s.grid d).moved then spawnTile (moveResolve s.grid d).grid p1 t1
        else (moveResolve s.grid d).grid) := by
  obtain ⟨a1, a2, a3⟩ := moveSession_rng_free s d p1 t1
  obtain ⟨b1, b2, _⟩ := moveSession_rng_free s d p2 t2
  exact ⟨a1.trans b1.symm, a2.trans b2.symm, a1, a2, a3⟩

/-- C10: every grid access performed during move resolution is within the
4 by 4 bounds: the interpreter in which every read and write goes through
a bounds-checked accessor (failing with none on any out-of-bounds access)
never fails and computes exactly the direct resolution, for every grid and
direction. -/
theorem claim_C10_bounds_safe (g : Grid) (d : Direction) :
    moveResolveChecked g d = some (moveResolve g d) :=
  moveResolveChecked_eq g d

end Game2048
